import Mathlib

/-!
# Verification of the glob-expansion engine (`src/rust/engine/fs/src/lib.rs`)

A shallow embedding of the virtual-filesystem glob-expansion engine.  Paths
(`PathBuf`) are modelled as lists of components (`List String`); the async
futures are modelled as pure functions with an explicit fuel argument (the
engine's fixed point is not structurally terminating: symlink cycles are a
documented non-termination); the generic error type `E` is instantiated with
`String` (`mk_error` is the identity, and the concrete `io::Error` carries its
message).  Fuel exhaustion is a distinct outcome `MRes.diverge`, separate from
`MRes.error` (the program's own failures).

External library behaviour is modelled as follows:

* the `glob` crate's `Pattern` is a wrapper around its source string together
  with an executable component matcher (`*`, `?`, character classes, with the
  escaping rules of `Pattern::escape`); syntactic validation of patterns by
  `Pattern::new` (which can reject e.g. an unclosed class) is not modelled —
  `Pattern.new` always succeeds, and a malformed class is tokenized literally;
* the `ignore` crate's gitignore matcher is not reimplemented: a
  `GitignoreStyleExcludes` value carries its original pattern list and an
  explicit matching function (`Path → Bool → GitignoreMatch`), exactly the
  data the engine consumes through `is_ignored`;
* Rust's `{:?}` (Debug) formatting of `Vec<String>` is modelled as the
  bracketed, comma-separated, double-quoted rendering; the escaping Debug
  performs inside string literals (for quotes, backslashes and control
  characters) is not modelled.
-/

/-! ## Paths -/

/-- A `PathBuf` relative to the root, as its list of components. -/
abbrev RPath := List String

/-- Rust `Path::file_name`: the final component, unless it is `..` (or the path is
empty), in which case `None`. -/
def RPath.fileName (p : RPath) : Option String :=
  match p.getLast? with
  | none => none
  | some s => if s = ".." then none else some s

/-- Render a component list back to the `/`-separated string form
(`Path::to_str`). -/
def RPath.toStr : RPath → String
  | [] => ""
  | [x] => x
  | x :: r => x ++ "/" ++ RPath.toStr r

/-- Split a character list at `/` separators. -/
def splitSlashAux : List Char → List Char → List (List Char)
  | [], acc => [acc.reverse]
  | '/' :: r, acc => acc.reverse :: splitSlashAux r []
  | c :: r, acc => splitSlashAux r (c :: acc)

/-- Split a filespec string into its `Path::components`, dropping empty
components (repeated or trailing separators). `.` and `..` components are kept
here; `PathGlob.parse` gives them their meaning. -/
def splitComponents (s : String) : List String :=
  ((splitSlashAux s.data []).map String.mk).filter (fun p => p ≠ "")

/-- Rust `Path::is_absolute` for the POSIX paths this engine handles: a leading
separator (the `RootDir` / `Prefix` components rejected by the parser). -/
def isAbsolutePath (s : String) : Bool := s.data.head? = some '/'

/-! ## Stats -/

/-- Rust `Link(PathBuf)`. -/
structure Link where
  path : RPath
deriving DecidableEq, Repr

/-- Rust `Dir(PathBuf)`. -/
structure Dir where
  path : RPath
deriving DecidableEq, Repr

/-- Rust `File { path, is_executable }`. -/
structure File where
  path : RPath
  is_executable : Bool
deriving DecidableEq, Repr

/-- Rust `Stat`: a filesystem entry relative to the root. -/
inductive Stat where
  | link (l : Link)
  | dir (d : Dir)
  | file (f : File)
deriving DecidableEq, Repr

/-- Rust `Stat::path`. -/
def Stat.path : Stat → RPath
  | .link l => l.path
  | .dir d => d.path
  | .file f => f.path

/-- Rust `PathStat`: a symbolic name together with the canonical underlying entry.
Links are absent by construction. -/
inductive PathStat where
  | dir (path : RPath) (stat : Dir)
  | file (path : RPath) (stat : File)
deriving DecidableEq, Repr

/-- Rust `PathStat::path`. -/
def PathStat.path : PathStat → RPath
  | .dir p _ => p
  | .file p _ => p

/-! ## Glob patterns (model of the `glob` crate) -/

/-- An item of a `[...]` character class: a single char or a range. -/
inductive ClassItem where
  | single (c : Char)
  | range (lo hi : Char)
deriving DecidableEq, Repr

/-- A token of a compiled shell-style pattern. -/
inductive GlobToken where
  | lit (c : Char)
  | anyChar
  | anySeq
  | classTok (neg : Bool) (items : List ClassItem)
deriving DecidableEq, Repr

/-- Parse the items of a character class after the (optional) negation marker,
up to the closing `]`.  A `]` directly after the opening (`first = true`) is a
literal member; a `-` directly before the closing `]` is a literal member.
Returns `none` when the class is unclosed. -/
def parseClassItems : List Char → Bool → Option (List ClassItem × List Char)
  | [], _ => none
  | ']' :: r, first =>
    if first then
      match parseClassItems r false with
      | some (items, rest) => some (.single ']' :: items, rest)
      | none => none
    else
      some ([], r)
  | a :: '-' :: b :: r, _ =>
    if b = ']' then
      some ([.single a, .single '-'], r)
    else
      match parseClassItems r false with
      | some (items, rest) => some (.range a b :: items, rest)
      | none => none
  | a :: r, _ =>
    match parseClassItems r false with
    | some (items, rest) => some (.single a :: items, rest)
    | none => none

/-- Parse a character class body (after the opening `[`): an optional leading
`!` negates the class. -/
def parseClass (cs : List Char) : Option (Bool × List ClassItem × List Char) :=
  if cs.head? = some '!' then
    (parseClassItems cs.tail true).map (fun pr => (true, pr.1, pr.2))
  else
    (parseClassItems cs true).map (fun pr => (false, pr.1, pr.2))

/-- Tokenize a pattern source string, with a structural fuel bounding the
number of tokens (each token consumes at least one character, so
`cs.length` steps always complete the input).  An unclosed class leaves the
`[` as a literal character (a pattern `Pattern::new` would in fact reject;
see the module comment). -/
def tokenizeAux : Nat → List Char → List GlobToken
  | _, [] => []
  | 0, _ => []
  | f + 1, '*' :: rest => .anySeq :: tokenizeAux f rest
  | f + 1, '?' :: rest => .anyChar :: tokenizeAux f rest
  | f + 1, '[' :: rest =>
    match parseClass rest with
    | some (neg, items, rest') => .classTok neg items :: tokenizeAux f rest'
    | none => .lit '[' :: tokenizeAux f rest
  | f + 1, c :: rest => .lit c :: tokenizeAux f rest

/-- Tokenize a pattern source string. -/
def tokenizeChars (cs : List Char) : List GlobToken :=
  tokenizeAux cs.length cs

/-- Does a character match a class item list? -/
def classMatches (items : List ClassItem) (c : Char) : Bool :=
  items.any fun it =>
    match it with
    | .single d => d = c
    | .range lo hi => lo ≤ c ∧ c ≤ hi

/-- Match a token list against the characters of a single path component,
with a structural fuel bounding the recursion depth (each step reduces
`ts.length + cs.length`, so `ts.length + cs.length + 1` steps suffice). -/
def tokensMatchAux : Nat → List GlobToken → List Char → Bool
  | 0, _, _ => false
  | _ + 1, [], [] => true
  | f + 1, .anySeq :: ts, cs =>
    tokensMatchAux f ts cs ||
      (match cs with
       | [] => false
       | _ :: cs' => tokensMatchAux f (.anySeq :: ts) cs')
  | f + 1, .lit c :: ts, d :: cs => c = d && tokensMatchAux f ts cs
  | f + 1, .anyChar :: ts, _ :: cs => tokensMatchAux f ts cs
  | f + 1, .classTok neg items :: ts, d :: cs =>
    (classMatches items d != neg) && tokensMatchAux f ts cs
  | _ + 1, _, _ => false

/-- Match a token list against the characters of a single path component. -/
def tokensMatch (ts : List GlobToken) (cs : List Char) : Bool :=
  tokensMatchAux (ts.length + cs.length + 1) ts cs

/-- Rust `glob::Pattern`, identified by its source string (see the module
comment). -/
structure Pattern where
  source : String
deriving DecidableEq, Repr

/-- Rust `Pattern::matches_path` applied to a single path component (the only way
the engine uses patterns: against `file_name`s). -/
def Pattern.matches (p : Pattern) (name : String) : Bool :=
  tokensMatch (tokenizeChars p.source.data) name.data

/-- Rust `Pattern::escape`: wrap each of `?`, `*`, `[`, `]` in a character class. -/
def Pattern.escape (s : String) : String :=
  String.mk (s.data.flatMap fun c =>
    if c = '?' ∨ c = '*' ∨ c = '[' ∨ c = ']' then ['[', c, ']'] else [c])

/-- Rust `SINGLE_STAR_GLOB`. -/
def singleStarGlob : Pattern := ⟨"*"⟩

/-- Rust `DOUBLE_STAR_GLOB`. -/
def doubleStarGlob : Pattern := ⟨"**"⟩

/-! ## Gitignore-style excludes -/

/-- The outcome of `ignore::gitignore::Gitignore::matched`. -/
inductive GitignoreMatch where
  | nomatch
  | ignore
  | whitelist
deriving DecidableEq, Repr

/-- Rust `GitignoreStyleExcludes`: the original patterns (for diagnostics) together
with the compiled matcher, modelled as an explicit function from a path and an
is-directory flag to a match outcome (the `ignore` crate's matcher itself is
external; see the module comment). -/
structure GitignoreStyleExcludes where
  patterns : List String
  matched : RPath → Bool → GitignoreMatch

/-- Rust `EMPTY_IGNORE`: the canonical empty matcher (an empty pattern list matches
nothing). -/
def GitignoreStyleExcludes.empty : GitignoreStyleExcludes :=
  { patterns := [], matched := fun _ _ => .nomatch }

/-- Rust `GitignoreStyleExcludes::is_ignored`: a `Dir` is matched as a directory,
others as files; `None` and `Whitelist` outcomes are not ignored. -/
def GitignoreStyleExcludes.is_ignored (e : GitignoreStyleExcludes) (stat : Stat) : Bool :=
  let is_dir := match stat with
    | .dir _ => true
    | _ => false
  match e.matched stat.path is_dir with
  | .nomatch => false
  | .whitelist => false
  | .ignore => true

/-! ## PathGlob algebra and parser -/

/-- Rust `PathGlob`: the two glob node variants. -/
inductive PathGlob where
  | wildcard (canonical_dir : Dir) (symbolic_path : RPath) (wildcard : Pattern)
  | dirWildcard (canonical_dir : Dir) (symbolic_path : RPath) (wildcard : Pattern)
      (remainder : List Pattern)
deriving DecidableEq, Repr

/-- Rust `GlobParsedSource`: the original user-supplied filespec string. -/
structure GlobParsedSource where
  s : String
deriving DecidableEq, Repr

/-- Rust `MISSING_GLOB_SOURCE`: the sentinel source used by
`PathGlobs::from_globs`. -/
def missingGlobSource : GlobParsedSource := ⟨""⟩

/-- Rust `PathGlobIncludeEntry`: a parsed source together with its globs. -/
structure PathGlobIncludeEntry where
  input : GlobParsedSource
  globs : List PathGlob
deriving DecidableEq, Repr

/--
`PathGlob::parse_globs`: given a filespec as patterns, create the `PathGlob`
objects.  A leading `**` produces the two recursive/skipping possibilities, a
leading `..` pops one component off the canonical dir (failing when the pop
would escape the root) and appends a literal `..` to the symbolic path.
-/
def PathGlob.parse_globs (canonical_dir : Dir) (symbolic_path : RPath)
    (parts : List Pattern) : Except String (List PathGlob) :=
  match parts with
  | [] => .ok []
  | p0 :: rest =>
    if p0.source = "**" then
      match rest with
      | [] =>
        .ok [.dirWildcard canonical_dir symbolic_path singleStarGlob [doubleStarGlob],
             .wildcard canonical_dir symbolic_path singleStarGlob]
      | p1 :: rest2 =>
        let pathglob_with_doublestar :=
          PathGlob.dirWildcard canonical_dir symbolic_path singleStarGlob (p0 :: p1 :: rest2)
        let pathglob_no_doublestar :=
          match rest2 with
          | [] => PathGlob.wildcard canonical_dir symbolic_path p1
          | _ => PathGlob.dirWildcard canonical_dir symbolic_path p1 rest2
        .ok [pathglob_with_doublestar, pathglob_no_doublestar]
    else if p0.source = ".." then
      match canonical_dir.path with
      | [] =>
        .error ("Globs may not traverse outside the root: " ++
          String.intercalate ", " ((p0 :: rest).map Pattern.source))
      | _ =>
        PathGlob.parse_globs ⟨canonical_dir.path.dropLast⟩ (symbolic_path ++ [".."]) rest
    else
      match rest with
      | [] => .ok [.wildcard canonical_dir symbolic_path p0]
      | _ => .ok [.dirWildcard canonical_dir symbolic_path p0 rest]

/-- The component-normalization pass of `PathGlob::parse`: skip `.` components
and collapse consecutive `**` (the flag records whether the previous kept
component was a `**`). -/
def normParts : Bool → List String → List Pattern
  | _, [] => []
  | prev, p :: rest =>
    if p = "." then normParts prev rest
    else if prev ∧ p = "**" then normParts true rest
    else ⟨p⟩ :: normParts (p = "**") rest

/--
`PathGlob::parse`: split a filespec into path components, rejecting absolute
paths, eliminating `.` and consecutive `**`s, and parse the result via
`parse_globs`.  (Compilation failures of `Pattern::new` on malformed component
syntax are not modelled; see the module comment.)
-/
def PathGlob.parse (canonical_dir : Dir) (symbolic_path : RPath) (filespec : String) :
    Except String (List PathGlob) :=
  if isAbsolutePath filespec then
    .error ("Absolute paths not supported: \"" ++ filespec ++ "\"")
  else
    PathGlob.parse_globs canonical_dir symbolic_path
      (normParts false (splitComponents filespec))

/-- Rust `PathGlob::spread_filespecs`: parse each filespec from the root, keeping
the provenance. -/
def PathGlob.spread_filespecs : List String → Except String (List PathGlobIncludeEntry)
  | [] => .ok []
  | fs :: rest =>
    match PathGlob.parse ⟨[]⟩ [] fs with
    | .error e => .error e
    | .ok globs =>
      match PathGlob.spread_filespecs rest with
      | .error e => .error e
      | .ok more => .ok (⟨⟨fs⟩, globs⟩ :: more)

/-- Rust `PathGlob::create`: parse each filespec and flatten the per-input
entries. -/
def PathGlob.create (filespecs : List String) : Except String (List PathGlob) :=
  match PathGlob.spread_filespecs filespecs with
  | .error e => .error e
  | .ok entries => .ok (entries.flatMap (fun e => e.globs))

/-! ## PathGlobs aggregate -/

/-- Rust `StrictGlobMatching`. -/
inductive StrictGlobMatching where
  | error
  | warn
  | ignore
deriving DecidableEq, Repr

/-- Rust `StrictGlobMatching::create` from the boundary string form. -/
def StrictGlobMatching.create (behavior : String) : Except String StrictGlobMatching :=
  if behavior = "ignore" then .ok .ignore
  else if behavior = "warn" then .ok .warn
  else if behavior = "error" then .ok .error
  else .error ("Unrecognized strict glob matching behavior: " ++ behavior ++ ".")

/-- Rust `StrictGlobMatching::should_check_glob_matches`. -/
def StrictGlobMatching.should_check_glob_matches : StrictGlobMatching → Bool
  | .ignore => false
  | _ => true

/-- Rust `StrictGlobMatching::should_throw_on_error`. -/
def StrictGlobMatching.should_throw_on_error : StrictGlobMatching → Bool
  | .error => true
  | _ => false

/-- Rust `PathGlobs`: includes, excludes and the strict-match policy. -/
structure PathGlobs where
  include_ : List PathGlobIncludeEntry
  exclude : GitignoreStyleExcludes
  strict_match_behavior : StrictGlobMatching

/-- Rust `PathGlobs::create` given an already-compiled exclude matcher (compiling
gitignore patterns is external, so the caller supplies the
`GitignoreStyleExcludes` value). -/
def PathGlobs.create (include_ : List String) (exclude : GitignoreStyleExcludes)
    (strict_match_behavior : StrictGlobMatching) : Except String PathGlobs :=
  match PathGlob.spread_filespecs include_ with
  | .error e => .error e
  | .ok entries => .ok ⟨entries, exclude, strict_match_behavior⟩

/-- Rust `PathGlobs::from_globs`: wrap raw globs with the sentinel source, an empty
exclude and `StrictGlobMatching::Ignore`.  (In the source this returns a
`Result` whose only failure source, compiling the empty exclude list, cannot
fail.) -/
def PathGlobs.from_globs (include_ : List PathGlob) : PathGlobs :=
  ⟨include_.map (fun g => ⟨missingGlobSource, [g]⟩), .empty, .ignore⟩

/-! ## Expansion engine state -/

/-- Rust `GlobSource`: the provenance of an intermediate glob. -/
inductive GlobSource where
  | parsedInput (src : GlobParsedSource)
  | parentGlob (glob : PathGlob)
deriving DecidableEq, Repr

/-- Rust `GlobWithSource`. -/
structure GlobWithSource where
  path_glob : PathGlob
  source : GlobSource
deriving DecidableEq, Repr

/-- Rust `GlobMatch`. -/
inductive GlobMatch where
  | successfullyMatchedSomeFiles
  | didNotMatchAnyFiles
deriving DecidableEq, Repr

/-- Rust `GlobExpansionCacheEntry`. -/
structure GlobExpansionCacheEntry where
  globs : List PathGlob
  matched : GlobMatch
  sources : List GlobSource
deriving DecidableEq, Repr

/-- Rust `SingleExpansionResult`. -/
structure SingleExpansionResult where
  sourced_glob : GlobWithSource
  path_stats : List PathStat
  globs : List PathGlob
deriving DecidableEq, Repr

/-- The `completed` map: `IndexMap<PathGlob, GlobExpansionCacheEntry>`
modelled as an insertion-ordered association list. -/
abbrev CompletedMap := List (PathGlob × GlobExpansionCacheEntry)

/-- First-match lookup in the completed map (`IndexMap::get`). -/
def lookupEntry (m : CompletedMap) (k : PathGlob) : Option GlobExpansionCacheEntry :=
  match m with
  | [] => none
  | (k', e) :: r => if k' = k then some e else lookupEntry r k

/-- Rust `PathGlobsExpansion`: the per-invocation mutable state (the `context` and
`exclude` fields are threaded as arguments instead). -/
structure PathGlobsExpansion where
  todo : List GlobWithSource
  completed : CompletedMap
  outputs : List PathStat
deriving DecidableEq, Repr

/-- Rust `PathGlobIncludeEntry::to_sourced_globs`. -/
def PathGlobIncludeEntry.to_sourced_globs (e : PathGlobIncludeEntry) : List GlobWithSource :=
  e.globs.map (fun g => ⟨g, .parsedInput e.input⟩)

/-- The result of a fuelled computation: either genuine program output or
error (the engine's `E = String`), or fuel exhaustion (`diverge`, standing for
the runs the Rust engine would not finish either, e.g. symlink cycles, or for
an insufficient fuel budget). -/
inductive MRes (α : Type) where
  | diverge
  | error (e : String)
  | ok (a : α)
deriving DecidableEq, Repr

/-- Sequencing of fuelled computations (the futures' `and_then`):
`diverge` and `error` propagate. -/
def MRes.bind {α β : Type} (m : MRes α) (f : α → MRes β) : MRes β :=
  match m with
  | .diverge => .diverge
  | .error e => .error e
  | .ok a => f a

/-- Lift a synchronous `Result` into a fuelled computation. -/
def MRes.ofExcept {α : Type} : Except String α → MRes α
  | .error e => .error e
  | .ok a => .ok a

/-- An `IndexSet` insertion: append if absent. -/
def insertUnique (l : List PathStat) (x : PathStat) : List PathStat :=
  if x ∈ l then l else l ++ [x]

/-- Rust `IndexSet::extend`. -/
def extendUnique (l : List PathStat) (xs : List PathStat) : List PathStat :=
  xs.foldl insertUnique l

/-- Append a source to the cache entry of key `k` (`sources.push`); other
entries are untouched. -/
def pushSource (m : CompletedMap) (k : PathGlob) (src : GlobSource) : CompletedMap :=
  m.map (fun kv => if kv.1 = k then (kv.1, { kv.2 with sources := kv.2.sources ++ [src] }) else kv)

/-- Rust `completed.entry(path_glob).or_insert_with(...).sources.push(source)`:
insert a fresh cache entry if the glob is new (recording matched-ness from the
non-emptiness of its `path_stats`), then push the incoming source. -/
def completedInsert (m : CompletedMap) (k : PathGlob) (globs : List PathGlob)
    (path_stats : List PathStat) (src : GlobSource) : CompletedMap :=
  if (lookupEntry m k).isSome then
    pushSource m k src
  else
    m ++ [(k, { globs := globs,
                matched := if path_stats.isEmpty then .didNotMatchAnyFiles
                           else .successfullyMatchedSomeFiles,
                sources := [src] })]

/-- Integrate one child glob: a child already in `completed` only has the
parent source appended and is not re-enqueued; a new child is pushed onto
`todo`. -/
def integrateChild (src : GlobSource) (st : PathGlobsExpansion) (c : PathGlob) :
    PathGlobsExpansion :=
  if (lookupEntry st.completed c).isSome then
    { st with completed := pushSource st.completed c src }
  else
    { st with todo := st.todo ++ [⟨c, src⟩] }

/-- Integrate one `SingleExpansionResult` into the expansion state: extend
`outputs` with the new path stats, insert/update the cache entry for the
expanded glob, then integrate each child glob. -/
def integrateResult (st : PathGlobsExpansion) (r : SingleExpansionResult) :
    PathGlobsExpansion :=
  let st1 := { st with outputs := extendUnique st.outputs r.path_stats }
  let st2 := { st1 with
    completed := completedInsert st1.completed r.sourced_glob.path_glob r.globs
      r.path_stats r.sourced_glob.source }
  r.globs.foldl (integrateChild (.parentGlob r.sourced_glob.path_glob)) st2

/-! ## VFS abstraction -/

/-- The `VFS` trait's primitive capabilities (with `E = String`;
`mk_error` is the identity on messages). -/
structure VFSModel where
  scandir : Dir → Except String (List Stat)
  is_ignored : Stat → Bool
  read_link : Link → Except String RPath

/-- The child-glob collection step of `expand_single` for a `DirWildcard`:
re-enter the parser for each directory result, fail-fast on a parse error,
and flatten. -/
def collectChildGlobs (remainder : List Pattern) : List PathStat → Except String (List PathGlob)
  | [] => .ok []
  | .file _ _ :: rest => collectChildGlobs remainder rest
  | .dir path stat :: rest =>
    match PathGlob.parse_globs stat path remainder with
    | .error e => .error e
    | .ok gs =>
      match collectChildGlobs remainder rest with
      | .error e => .error e
      | .ok more => .ok (gs ++ more)

/-- Sequential fail-fast traversal (the engine's `join_all`/`collect` over a
batch, with `diverge` dominating as a fuel artifact). -/
def mapMRes (f : α → MRes β) : List α → MRes (List β)
  | [] => .ok []
  | a :: rest =>
    match f a with
    | .diverge => .diverge
    | .error e => .error e
    | .ok b =>
      match mapMRes f rest with
      | .diverge => .diverge
      | .error e => .error e
      | .ok bs => .ok (b :: bs)

/-! ## Strict-match back-propagation and diagnostics -/

/-- Model of `{:?}` on one `String` (see the module comment on escaping). -/
def quoteStr (s : String) : String := "\"" ++ s ++ "\""

/-- Comma-separated quoted rendering of the elements of a `Vec<String>`. -/
def sepQuoted : List String → String
  | [] => ""
  | [x] => quoteStr x
  | x :: r => quoteStr x ++ ", " ++ sepQuoted r

/-- Model of `{:?}` on a `Vec<String>`. -/
def fmtStrList (l : List String) : String := "[" ++ sepQuoted l ++ "]"

/-- The strict-match diagnostic message format of `expand`. -/
def strictMsg (exclude_patterns : List String) (unmatched : List String) : String :=
  "Globs did not match. Excludes were: " ++ fmtStrList exclude_patterns ++
    ". Unmatched globs were: " ++ fmtStrList unmatched ++ "."

/-- Overwrite the `matched` field of key `k` with
`SuccessfullyMatchedSomeFiles` (`completed.get_mut(..).matched = ..`). -/
def setMatched (m : CompletedMap) (k : PathGlob) : CompletedMap :=
  m.map (fun kv =>
    if kv.1 = k then (kv.1, { kv.2 with matched := .successfullyMatchedSomeFiles }) else kv)

/-- One step of the reverse-insertion-order walk: when the current glob
matched, record its parsed-input sources and mark its parent globs matched.
(The `unwrap` on a key known to be present is modelled by skipping a missing
key.) -/
def backpropStep (acc : CompletedMap × List GlobParsedSource) (cur : PathGlob) :
    CompletedMap × List GlobParsedSource :=
  match lookupEntry acc.1 cur with
  | none => acc
  | some e =>
    match e.matched with
    | .didNotMatchAnyFiles => acc
    | .successfullyMatchedSomeFiles =>
      let parents := e.sources.filterMap (fun s =>
        match s with
        | .parentGlob p => some p
        | .parsedInput _ => none)
      let inputs := e.sources.filterMap (fun s =>
        match s with
        | .parsedInput i => some i
        | .parentGlob _ => none)
      (parents.foldl setMatched acc.1, acc.2 ++ inputs)

/-- The full back-propagation over `completed.keys().rev()`, returning the
updated map and the set of parsed inputs with matches (a `HashSet` modelled as
a list used only through membership). -/
def backprop (completed : CompletedMap) : CompletedMap × List GlobParsedSource :=
  ((completed.map Prod.fst).reverse).foldl backpropStep (completed, [])

/-- The include inputs that did not transitively expand to any `PathStat`, in
include order. -/
def nonMatchingInputs (include_ : List PathGlobIncludeEntry) (completed : CompletedMap) :
    List GlobParsedSource :=
  let inputs_with_matches := (backprop completed).2
  (include_.map (fun e => e.input)).filter (fun i => !(inputs_with_matches.contains i))

/-- The final stage of `expand`: return the collected outputs, after the
strict-match check (under `Warn` the diagnostic is only logged, which is not
modelled; the expansion succeeds). -/
def finishExpansion (include_ : List PathGlobIncludeEntry) (exclude : GitignoreStyleExcludes)
    (behavior : StrictGlobMatching) (final : PathGlobsExpansion) : MRes (List PathStat) :=
  if behavior.should_check_glob_matches then
    if (nonMatchingInputs include_ final.completed).isEmpty then .ok final.outputs
    else if behavior.should_throw_on_error then
      .error (strictMsg exclude.patterns
        ((nonMatchingInputs include_ final.completed).map (fun i => i.s)))
    else .ok final.outputs
  else .ok final.outputs

/-! ## The expansion engine

The engine's functions are mutually recursive through
`canonicalize → expand → … → directory_listing → canonicalize`, with fuel as
the decreasing measure.  To keep every definition kernel-reducible they are
built as a single structural recursion on the fuel, producing at each level
the bundle of all engine operations; the level-`n+1` operations call the
level-`n` ones, and at level `0` every pending operation diverges (an empty
batch is still complete, and an empty include list still returns). -/

/-- The bundle of engine operations at one fuel level. -/
structure EngineFns where
  canonF : RPath → Link → MRes (Option PathStat)
  lstepF : GitignoreStyleExcludes → RPath × Stat → MRes (Option PathStat)
  lstepsF : GitignoreStyleExcludes → List (RPath × Stat) → MRes (List (Option PathStat))
  dlistF : Dir → RPath → Pattern → GitignoreStyleExcludes → MRes (List PathStat)
  singleF : GitignoreStyleExcludes → GlobWithSource → MRes SingleExpansionResult
  singlesF : GitignoreStyleExcludes → List GlobWithSource → MRes (List SingleExpansionResult)
  roundF : GitignoreStyleExcludes → PathGlobsExpansion → MRes PathGlobsExpansion
  loopF : GitignoreStyleExcludes → PathGlobsExpansion → MRes PathGlobsExpansion
  expandF : PathGlobs → MRes (List PathStat)

/-- The engine at fuel `0`: everything that still needs work diverges. -/
def engineZero : EngineFns where
  canonF := fun _ _ => .diverge
  lstepF := fun _ _ => .diverge
  lstepsF := fun _ prs => match prs with | [] => .ok [] | _ :: _ => .diverge
  dlistF := fun _ _ _ _ => .diverge
  singleF := fun _ _ => .diverge
  singlesF := fun _ sgs => match sgs with | [] => .ok [] | _ :: _ => .diverge
  roundF := fun _ _ => .diverge
  loopF := fun _ _ => .diverge
  expandF := fun path_globs =>
    if path_globs.include_.isEmpty then .ok [] else .diverge

/-- The engine at fuel `n+1`, given the engine `prev` at fuel `n`. -/
def engineStep (vfs : VFSModel) (prev : EngineFns) : EngineFns where
  /- `VFS::canonicalize`: read one link hop, escape the destination, re-parse
  it into globs and recursively expand them (with the sentinel source, empty
  excludes and `Ignore`); the result is 0 or 1 `PathStat`, rewritten to the
  caller-supplied symbolic path. -/
  canonF := fun symbolic_path l =>
    MRes.bind (MRes.ofExcept (vfs.read_link l)) fun dest_path =>
      let link_globs :=
        match PathGlob.create [Pattern.escape (RPath.toStr dest_path)] with
        | .ok gs => gs
        | .error _ => []
      MRes.bind (prev.expandF (PathGlobs.from_globs link_globs)) fun path_stats =>
        .ok ((path_stats.getLast?).map (fun ps =>
          match ps with
          | .dir _ stat => .dir symbolic_path stat
          | .file _ stat => .file symbolic_path stat))
  /- The per-entry body of `directory_listing`: drop entries ignored by the
  context or by the local excludes (both judged on the listing `Stat`), then
  canonicalize links and wrap files and dirs. -/
  lstepF := fun exclude pr =>
    if vfs.is_ignored pr.2 || exclude.is_ignored pr.2 then .ok none
    else
      match pr.2 with
      | .link l => prev.canonF pr.1 l
      | .dir d => .ok (some (.dir pr.1 d))
      | .file f => .ok (some (.file pr.1 f))
  /- The joined batch of listing steps (`future::join_all`). -/
  lstepsF := fun exclude prs =>
    match prs with
    | [] => .ok []
    | pr :: rest =>
      MRes.bind (prev.lstepF exclude pr) fun o =>
        MRes.bind (prev.lstepsF exclude rest) fun os => .ok (o :: os)
  /- `VFS::directory_listing`: scan the canonical dir, keep entries whose
  file name matches the wildcard, pair each with its symbolic path
  (`symbolic_path / file_name`), process each entry and drop the `None`s. -/
  dlistF := fun canonical_dir symbolic_path wildcard exclude =>
    MRes.bind (MRes.ofExcept (vfs.scandir canonical_dir)) fun dir_listing =>
      let entries :=
        (dir_listing.filter (fun stat =>
          match RPath.fileName stat.path with
          | some nm => wildcard.matches nm
          | none => false)).filterMap (fun stat =>
            (RPath.fileName stat.path).map (fun nm => (symbolic_path ++ [nm], stat)))
      MRes.bind (prev.lstepsF exclude entries) fun path_stats =>
        .ok (path_stats.filterMap id)
  /- `VFS::expand_single`: a `Wildcard` turns its directory listing into path
  stats with no children; a `DirWildcard` re-enters the parser on each listed
  directory with its remainder, producing child globs and no path stats. -/
  singleF := fun exclude sourced_glob =>
    match sourced_glob.path_glob with
    | .wildcard canonical_dir symbolic_path wildcard =>
      MRes.bind (prev.dlistF canonical_dir symbolic_path wildcard exclude) fun path_stats =>
        .ok ⟨sourced_glob, path_stats, []⟩
    | .dirWildcard canonical_dir symbolic_path wildcard remainder =>
      MRes.bind (prev.dlistF canonical_dir symbolic_path wildcard exclude) fun path_stats =>
        MRes.bind (MRes.ofExcept (collectChildGlobs remainder path_stats)) fun globs =>
          .ok ⟨sourced_glob, [], globs⟩
  /- The joined batch of `expand_single`s for one round. -/
  singlesF := fun exclude sgs =>
    match sgs with
    | [] => .ok []
    | sg :: rest =>
      MRes.bind (prev.singleF exclude sg) fun r =>
        MRes.bind (prev.singlesF exclude rest) fun rs => .ok (r :: rs)
  /- One round of the fixed point: drain `todo`, expand the batch, and fold
  each result into the state. -/
  roundF := fun exclude st =>
    MRes.bind (prev.singlesF exclude st.todo) fun results =>
      .ok (results.foldl integrateResult { st with todo := [] })
  /- The `loop_fn` fixed point: run rounds until `todo` is empty. -/
  loopF := fun exclude st =>
    MRes.bind (prev.roundF exclude st) fun st' =>
      if st'.todo.isEmpty then .ok st' else prev.loopF exclude st'
  /- `VFS::expand`: empty includes return immediately; otherwise run the
  fixed-point loop from the sourced include globs and finish with the
  strict-match check. -/
  expandF := fun path_globs =>
    if path_globs.include_.isEmpty then .ok []
    else
      MRes.bind (prev.loopF path_globs.exclude
          ⟨path_globs.include_.flatMap PathGlobIncludeEntry.to_sourced_globs, [], []⟩)
        fun final =>
          finishExpansion path_globs.include_ path_globs.exclude
            path_globs.strict_match_behavior final

/-- The engine at a given fuel level. -/
def engineAt (vfs : VFSModel) : Nat → EngineFns
  | 0 => engineZero
  | n + 1 => engineStep vfs (engineAt vfs n)

/-- Rust `VFS::canonicalize` (see `engineStep.canonF`). -/
def canonicalize (n : Nat) (vfs : VFSModel) (symbolic_path : RPath) (l : Link) :
    MRes (Option PathStat) :=
  (engineAt vfs n).canonF symbolic_path l

/-- The per-entry body of `directory_listing` (see `engineStep.lstepF`). -/
def listingStep (n : Nat) (vfs : VFSModel) (exclude : GitignoreStyleExcludes)
    (pr : RPath × Stat) : MRes (Option PathStat) :=
  (engineAt vfs n).lstepF exclude pr

/-- The joined batch of listing steps (see `engineStep.lstepsF`). -/
def listingSteps (n : Nat) (vfs : VFSModel) (exclude : GitignoreStyleExcludes)
    (prs : List (RPath × Stat)) : MRes (List (Option PathStat)) :=
  (engineAt vfs n).lstepsF exclude prs

/-- Rust `VFS::directory_listing` (see `engineStep.dlistF`). -/
def directory_listing (n : Nat) (vfs : VFSModel) (canonical_dir : Dir)
    (symbolic_path : RPath) (wildcard : Pattern) (exclude : GitignoreStyleExcludes) :
    MRes (List PathStat) :=
  (engineAt vfs n).dlistF canonical_dir symbolic_path wildcard exclude

/-- Rust `VFS::expand_single` (see `engineStep.singleF`). -/
def expand_single (n : Nat) (vfs : VFSModel) (exclude : GitignoreStyleExcludes)
    (sourced_glob : GlobWithSource) : MRes SingleExpansionResult :=
  (engineAt vfs n).singleF exclude sourced_glob

/-- The joined batch of `expand_single`s for one round (see
`engineStep.singlesF`). -/
def expandSingles (n : Nat) (vfs : VFSModel) (exclude : GitignoreStyleExcludes)
    (sgs : List GlobWithSource) : MRes (List SingleExpansionResult) :=
  (engineAt vfs n).singlesF exclude sgs

/-- One round of the fixed point (see `engineStep.roundF`). -/
def expandRound (n : Nat) (vfs : VFSModel) (exclude : GitignoreStyleExcludes)
    (st : PathGlobsExpansion) : MRes PathGlobsExpansion :=
  (engineAt vfs n).roundF exclude st

/-- The `loop_fn` fixed point (see `engineStep.loopF`). -/
def expandLoop (n : Nat) (vfs : VFSModel) (exclude : GitignoreStyleExcludes)
    (st : PathGlobsExpansion) : MRes PathGlobsExpansion :=
  (engineAt vfs n).loopF exclude st

/-- Rust `VFS::expand` (see `engineStep.expandF`). -/
def expand (n : Nat) (vfs : VFSModel) (path_globs : PathGlobs) : MRes (List PathStat) :=
  (engineAt vfs n).expandF path_globs

/-- The wildcard filter and symbolic-path pairing of `directory_listing`. -/
def listingEntries (dir_listing : List Stat) (symbolic_path : RPath) (wildcard : Pattern) :
    List (RPath × Stat) :=
  (dir_listing.filter (fun stat =>
    match RPath.fileName stat.path with
    | some nm => wildcard.matches nm
    | none => false)).filterMap (fun stat =>
      (RPath.fileName stat.path).map (fun nm => (symbolic_path ++ [nm], stat)))

/-! ## PathStatGetter (`PosixFS::path_stats`) -/

/-- The `io::ErrorKind` distinction `path_stats` makes. -/
inductive IOErrorKind where
  | notFound
  | other
deriving DecidableEq, Repr

/-- A concrete `PosixFS` as the engine sees it: the VFS capabilities plus
`stat_path` (symlink metadata for a single relative path). -/
structure PosixFSModel where
  vfs : VFSModel
  stat_path : RPath → Except (IOErrorKind × String) Stat

/-- The per-path body of `path_stats`: a not-found stat yields `None`, other
stat errors propagate, links are canonicalized (their own path as the
symbolic path), files and dirs are wrapped. -/
def pathStatOne (n : Nat) (fs : PosixFSModel) (path : RPath) : MRes (Option PathStat) :=
  match fs.stat_path path with
  | .error (.notFound, _) => .ok none
  | .error (.other, m) => .error m
  | .ok (.link l) => canonicalize n fs.vfs l.path l
  | .ok (.dir d) => .ok (some (.dir d.path d))
  | .ok (.file f) => .ok (some (.file f.path f))

/-- Rust `PathStatGetter::path_stats`: one result per input path, in order. -/
def path_stats (n : Nat) (fs : PosixFSModel) (paths : List RPath) :
    MRes (List (Option PathStat)) :=
  mapMRes (pathStatOne n fs) paths

/-! ## Completed-map invariants (C6) -/

/-- Every cache entry of `m₀` survives into `m` with its `globs` and
`matched` fields intact (only `sources` may have grown). -/
def EntriesPreserved (m₀ m : CompletedMap) : Prop :=
  ∀ k e, lookupEntry m₀ k = some e →
    ∃ e', lookupEntry m k = some e' ∧ e'.globs = e.globs ∧ e'.matched = e.matched

/-- The invariant a round maintains relative to the round-start completed map
`m₀`: existing entries are preserved, every glob on `todo` was absent from
`m₀`, and key uniqueness is maintained. -/
def RoundInv (m₀ : CompletedMap) (st : PathGlobsExpansion) : Prop :=
  EntriesPreserved m₀ st.completed ∧
  (∀ g ∈ st.todo, lookupEntry m₀ g.path_glob = none) ∧
  ((m₀.map Prod.fst).Nodup → (st.completed.map Prod.fst).Nodup)

/-- A VFS whose root holds a single regular file `a` (witness fixture). -/
def oneFileVFS : VFSModel where
  scandir := fun d => if d.path = [] then .ok [.file ⟨["a"], false⟩] else .error "missing"
  is_ignored := fun _ => false
  read_link := fun _ => .error "no links"

/-- The glob `*` at the root (witness fixture). -/
def starGlob : PathGlob := .wildcard ⟨[]⟩ [] ⟨"*"⟩

/-- Rust `PathGlobs(include=["*"], exclude=[], Ignore)` (witness fixture). -/
def starPathGlobs : PathGlobs :=
  ⟨[⟨⟨"*"⟩, [starGlob]⟩], .empty, .ignore⟩

/-- A round-start expansion state holding the sourced `*` glob (witness
fixture). -/
def wRoundStart : PathGlobsExpansion :=
  ⟨[⟨starGlob, .parsedInput ⟨"*"⟩⟩], [], []⟩

/-- The state after one round over `oneFileVFS` (witness fixture). -/
def wRoundEnd : PathGlobsExpansion :=
  ⟨[], [(starGlob, ⟨[], .successfullyMatchedSomeFiles, [.parsedInput ⟨"*"⟩]⟩)],
    [PathStat.file ["a"] ⟨["a"], false⟩]⟩

/-- A VFS over an empty directory tree (witness fixture). -/
def emptyTreeVFS : VFSModel where
  scandir := fun _ => .ok []
  is_ignored := fun _ => false
  read_link := fun _ => .error "no links"

/-- Rust `PathGlobs(include=["nonexistent"], exclude=[], Error)` (witness
fixture; `PathGlob::parse` of `"nonexistent"` yields exactly this wildcard). -/
def nonexistentPathGlobs : PathGlobs :=
  ⟨[⟨⟨"nonexistent"⟩, [.wildcard ⟨[]⟩ [] ⟨"nonexistent"⟩]⟩], .empty, .error⟩

/-- The fixed-point state reached for `nonexistentPathGlobs` over the empty
tree (witness fixture). -/
def wC1St : PathGlobsExpansion :=
  ⟨[], [(.wildcard ⟨[]⟩ [] ⟨"nonexistent"⟩,
      ⟨[], .didNotMatchAnyFiles, [.parsedInput ⟨"nonexistent"⟩]⟩)], []⟩

/-! ## Listing-time ignores (C3) -/

/-- A VFS whose root holds a dir `d` (containing file `d/tgt`) and a link
`lnk → d/tgt` (counterexample fixture). -/
def cexVFS : VFSModel where
  scandir := fun d =>
    if d.path = [] then .ok [.dir ⟨["d"]⟩, .link ⟨["lnk"]⟩]
    else if d.path = ["d"] then .ok [.file ⟨["d", "tgt"], false⟩]
    else .error "missing"
  is_ignored := fun _ => false
  read_link := fun l => if l.path = ["lnk"] then .ok ["d", "tgt"] else .error "bad link"

/-- Excludes compiled from the anchored gitignore pattern `/lnk`: it matches
exactly the root-relative path `lnk` (counterexample fixture). -/
def cexExcl : GitignoreStyleExcludes where
  patterns := ["/lnk"]
  matched := fun p _ => if p = ["lnk"] then .ignore else .nomatch

/-- Rust `cexVFS` with a context ignore on the link target `d/tgt` (fixture for
the post-canonicalization re-application of the context ignore). -/
def cexVFS2 : VFSModel where
  scandir := cexVFS.scandir
  is_ignored := fun st => st = .file ⟨["d", "tgt"], false⟩
  read_link := cexVFS.read_link

/-- A concrete `PosixFSModel` with an existing file, a missing path and a
path that fails with a non-not-found I/O error (witness fixture). -/
def wPosixFS : PosixFSModel where
  vfs := emptyTreeVFS
  stat_path := fun p =>
    if p = ["a"] then .ok (.file ⟨["a"], false⟩)
    else if p = ["b"] then .error (.notFound, "nf")
    else .error (.other, "boom")

theorem MRes.bind_eq_ok {α β : Type} {m : MRes α} {f : α → MRes β} {b : β} :
    m.bind f = .ok b ↔ ∃ a, m = .ok a ∧ f a = .ok b := by
  cases m <;> simp [MRes.bind]

theorem MRes.ofExcept_eq_ok {α : Type} {r : Except String α} {a : α} :
    MRes.ofExcept r = .ok a ↔ r = .ok a := by
  cases r <;> simp [MRes.ofExcept]

/-! Unfolding equations for the engine wrappers (all definitional). -/

theorem canonicalize_succ (n : Nat) (vfs : VFSModel) (symbolic_path : RPath) (l : Link) :
    canonicalize (n + 1) vfs symbolic_path l =
      MRes.bind (MRes.ofExcept (vfs.read_link l)) (fun dest_path =>
        MRes.bind (expand n vfs (PathGlobs.from_globs
            (match PathGlob.create [Pattern.escape (RPath.toStr dest_path)] with
             | .ok gs => gs
             | .error _ => []))) (fun path_stats =>
          .ok ((path_stats.getLast?).map (fun ps =>
            match ps with
            | .dir _ stat => .dir symbolic_path stat
            | .file _ stat => .file symbolic_path stat)))) := rfl

theorem listingStep_succ (n : Nat) (vfs : VFSModel) (exclude : GitignoreStyleExcludes)
    (pr : RPath × Stat) :
    listingStep (n + 1) vfs exclude pr =
      (if vfs.is_ignored pr.2 || exclude.is_ignored pr.2 then .ok none
       else
        match pr.2 with
        | .link l => canonicalize n vfs pr.1 l
        | .dir d => .ok (some (.dir pr.1 d))
        | .file f => .ok (some (.file pr.1 f))) := rfl

theorem listingSteps_succ (n : Nat) (vfs : VFSModel) (exclude : GitignoreStyleExcludes)
    (pr : RPath × Stat) (rest : List (RPath × Stat)) :
    listingSteps (n + 1) vfs exclude (pr :: rest) =
      MRes.bind (listingStep n vfs exclude pr) (fun o =>
        MRes.bind (listingSteps n vfs exclude rest) (fun os => .ok (o :: os))) := rfl

theorem listingSteps_nil (n : Nat) (vfs : VFSModel) (exclude : GitignoreStyleExcludes) :
    listingSteps n vfs exclude [] = .ok [] := by
  cases n <;> rfl

theorem directory_listing_succ (n : Nat) (vfs : VFSModel) (canonical_dir : Dir)
    (symbolic_path : RPath) (wildcard : Pattern) (exclude : GitignoreStyleExcludes) :
    directory_listing (n + 1) vfs canonical_dir symbolic_path wildcard exclude =
      MRes.bind (MRes.ofExcept (vfs.scandir canonical_dir)) (fun dir_listing =>
        MRes.bind (listingSteps n vfs exclude
            (listingEntries dir_listing symbolic_path wildcard)) (fun path_stats =>
          .ok (path_stats.filterMap id))) := rfl

theorem expand_single_succ (n : Nat) (vfs : VFSModel) (exclude : GitignoreStyleExcludes)
    (sourced_glob : GlobWithSource) :
    expand_single (n + 1) vfs exclude sourced_glob =
      (match sourced_glob.path_glob with
       | .wildcard canonical_dir symbolic_path wildcard =>
         MRes.bind (directory_listing n vfs canonical_dir symbolic_path wildcard exclude)
           (fun path_stats => .ok ⟨sourced_glob, path_stats, []⟩)
       | .dirWildcard canonical_dir symbolic_path wildcard remainder =>
         MRes.bind (directory_listing n vfs canonical_dir symbolic_path wildcard exclude)
           (fun path_stats =>
             MRes.bind (MRes.ofExcept (collectChildGlobs remainder path_stats))
               (fun globs => .ok ⟨sourced_glob, [], globs⟩))) := rfl

theorem expandSingles_succ (n : Nat) (vfs : VFSModel) (exclude : GitignoreStyleExcludes)
    (sg : GlobWithSource) (rest : List GlobWithSource) :
    expandSingles (n + 1) vfs exclude (sg :: rest) =
      MRes.bind (expand_single n vfs exclude sg) (fun r =>
        MRes.bind (expandSingles n vfs exclude rest) (fun rs => .ok (r :: rs))) := rfl

theorem expandSingles_nil (n : Nat) (vfs : VFSModel) (exclude : GitignoreStyleExcludes) :
    expandSingles n vfs exclude [] = .ok [] := by
  cases n <;> rfl

theorem expandRound_succ (n : Nat) (vfs : VFSModel) (exclude : GitignoreStyleExcludes)
    (st : PathGlobsExpansion) :
    expandRound (n + 1) vfs exclude st =
      MRes.bind (expandSingles n vfs exclude st.todo) (fun results =>
        .ok (results.foldl integrateResult { st with todo := [] })) := rfl

theorem expandLoop_succ (n : Nat) (vfs : VFSModel) (exclude : GitignoreStyleExcludes)
    (st : PathGlobsExpansion) :
    expandLoop (n + 1) vfs exclude st =
      MRes.bind (expandRound n vfs exclude st) (fun st' =>
        if st'.todo.isEmpty then .ok st' else expandLoop n vfs exclude st') := rfl

theorem expand_succ (n : Nat) (vfs : VFSModel) (path_globs : PathGlobs) :
    expand (n + 1) vfs path_globs =
      (if path_globs.include_.isEmpty then .ok []
       else
        MRes.bind (expandLoop n vfs path_globs.exclude
            ⟨path_globs.include_.flatMap PathGlobIncludeEntry.to_sourced_globs, [], []⟩)
          (fun final =>
            finishExpansion path_globs.include_ path_globs.exclude
              path_globs.strict_match_behavior final)) := rfl

theorem expand_nil_include (n : Nat) (vfs : VFSModel) (path_globs : PathGlobs)
    (h : path_globs.include_ = []) : expand n vfs path_globs = .ok [] := by
  cases n <;> simp [expand, engineAt, engineZero, engineStep, h]

/-! ## Helper lemmas -/

theorem normParts_all_dot : ∀ (prev : Bool) (l : List String),
    (l.all (fun c => c = ".")) = true → normParts prev l = [] := by
  intro prev l h
  induction l generalizing prev with
  | nil => rfl
  | cons p rest ih =>
    simp only [List.all_cons, Bool.and_eq_true, decide_eq_true_eq] at h
    rw [normParts, if_pos h.1]
    exact ih prev (by simpa using h.2)

theorem normParts_true_head : ∀ (l : List String) (b : Pattern),
    (normParts true l).head? = some b → b.source ≠ "**" := by
  intro l
  induction l with
  | nil => intro b h; exact absurd h (by simp [normParts])
  | cons p rest ih =>
    intro b h
    rw [normParts] at h
    by_cases hdot : p = "."
    · rw [if_pos hdot] at h
      exact ih b h
    · rw [if_neg hdot] at h
      by_cases hds : p = "**"
      · rw [if_pos ⟨rfl, hds⟩] at h
        exact ih b h
      · rw [if_neg (fun hc => hds hc.2)] at h
        simp only [List.head?_cons, Option.some.injEq] at h
        rw [← h]
        exact hds

theorem normParts_chain : ∀ (prev : Bool) (l : List String),
    List.Chain' (fun a b => ¬(a.source = "**" ∧ b.source = "**")) (normParts prev l) := by
  intro prev l
  induction l generalizing prev with
  | nil => exact List.chain'_nil
  | cons p rest ih =>
    rw [normParts]
    by_cases hdot : p = "."
    · rw [if_pos hdot]; exact ih prev
    · rw [if_neg hdot]
      by_cases hskip : prev = true ∧ p = "**"
      · rw [if_pos hskip]; exact ih true
      · rw [if_neg hskip]
        rw [List.chain'_cons']
        refine ⟨?_, ih (p = "**")⟩
        intro b hb hcontra
        have hp : p = "**" := hcontra.1
        subst hp
        have hb' : (normParts true rest).head? = some b := by
          simpa using Option.mem_def.mp hb
        exact normParts_true_head rest b hb' hcontra.2

/-! ## Claims -/

/--
C2: for every `canonical_dir` and `symbolic_path`, parsing a filespec whose
component list (after normalization) is exactly one `**` produces exactly two
globs: a `DirWildcard` over `canonical_dir`/`symbolic_path` with wildcard `*`
and remainder `[**]`, and a `Wildcard` over the same `canonical_dir` and
`symbolic_path` with wildcard `*`.
-/
theorem claim_C2 (canonical_dir : Dir) (symbolic_path : RPath) :
    PathGlob.parse_globs canonical_dir symbolic_path [⟨"**"⟩] =
      .ok [.dirWildcard canonical_dir symbolic_path ⟨"*"⟩ [⟨"**"⟩],
           .wildcard canonical_dir symbolic_path ⟨"*"⟩] := by
  rfl

/--
C5: a leading `..` in `parse_globs` fails exactly when `canonical_dir` is
already empty (the pop would escape the root); otherwise it pops one component
off `canonical_dir`, appends a literal `..` to `symbolic_path`, and recurses
on the remaining parts.  In particular `["../outside"]` from the root is a
parse error.
-/
theorem claim_C5 :
    (∀ (sp : RPath) (rest : List Pattern),
        ∃ e, PathGlob.parse_globs ⟨[]⟩ sp (⟨".."⟩ :: rest) = .error e) ∧
    (∀ (cd : Dir) (sp : RPath) (rest : List Pattern), cd.path ≠ [] →
        PathGlob.parse_globs cd sp (⟨".."⟩ :: rest) =
          PathGlob.parse_globs ⟨cd.path.dropLast⟩ (sp ++ [".."]) rest) ∧
    (∃ e, PathGlob.parse ⟨[]⟩ [] "../outside" = .error e) := by
  refine ⟨fun sp rest => ⟨_, rfl⟩, fun cd sp rest hne => ?_, ⟨_, rfl⟩⟩
  obtain ⟨cdp⟩ := cd
  cases cdp with
  | nil => exact absurd rfl hne
  | cons a l => rfl

/-- Witness for C5 at a concrete non-root canonical dir. -/
theorem claim_C5_witness :
    PathGlob.parse_globs ⟨["a"]⟩ [] [⟨".."⟩, ⟨"x"⟩] =
      PathGlob.parse_globs ⟨[]⟩ [".."] [⟨"x"⟩] :=
  claim_C5.2.1 ⟨["a"]⟩ [] [⟨"x"⟩] (by decide)

/--
C4: `PathGlob::parse` on `"a/**/**/*.rs"` returns exactly the same globs as
on `"a/**/*.rs"` for every `canonical_dir` and `symbolic_path`; in general
the normalization pass never leaves two consecutive `**` components.
-/
theorem claim_C4 :
    (∀ (cd : Dir) (sp : RPath),
        PathGlob.parse cd sp "a/**/**/*.rs" = PathGlob.parse cd sp "a/**/*.rs") ∧
    (∀ (s : String),
        List.Chain' (fun a b => ¬(a.source = "**" ∧ b.source = "**"))
          (normParts false (splitComponents s))) := by
  exact ⟨fun cd sp => rfl, fun s => normParts_chain false (splitComponents s)⟩

/--
C9: expanding a `PathGlobs` whose include list is empty returns the empty
list immediately — for every fuel budget (even zero, so no VFS operation can
have been performed) and every VFS, excludes and strict-match behavior (the
strict-match check is skipped even under `Error`).
-/
theorem claim_C9 (fuel : Nat) (vfs : VFSModel) (exclude : GitignoreStyleExcludes)
    (behavior : StrictGlobMatching) :
    expand fuel vfs ⟨[], exclude, behavior⟩ = .ok [] :=
  expand_nil_include fuel vfs _ rfl

/--
C10: a filespec all of whose components are `.` parses to the empty glob
list; consequently an include entry with no globs contributes no `PathStat`s,
and under `Error` the expansion fails naming that input as unmatched (under
`Warn` the expansion still succeeds, the warning being only logged).
-/
theorem claim_C10 :
    (∀ (cd : Dir) (sp : RPath) (s : String),
        isAbsolutePath s = false →
        (splitComponents s).all (fun c => c = ".") = true →
        PathGlob.parse cd sp s = .ok []) ∧
    (PathGlob.parse ⟨[]⟩ [] "." = .ok [] ∧ PathGlob.parse ⟨[]⟩ [] "./." = .ok []) ∧
    (∀ (vfs : VFSModel) (input : GlobParsedSource) (excl : GitignoreStyleExcludes),
        expand 3 vfs ⟨[⟨input, []⟩], excl, .error⟩ =
          .error (strictMsg excl.patterns [input.s])) ∧
    (∀ (vfs : VFSModel) (input : GlobParsedSource) (excl : GitignoreStyleExcludes),
        expand 3 vfs ⟨[⟨input, []⟩], excl, .warn⟩ = .ok []) := by
  refine ⟨fun cd sp s habs hdot => ?_, ⟨rfl, rfl⟩, fun vfs input excl => rfl,
    fun vfs input excl => rfl⟩
  unfold PathGlob.parse
  rw [habs]
  simp only [Bool.false_eq_true, if_false]
  rw [normParts_all_dot false _ hdot]
  rfl

/-- Witness for C10 at the concrete filespec `"./."`. -/
theorem claim_C10_witness :
    PathGlob.parse ⟨["base"]⟩ ["sym"] "./." = .ok [] :=
  claim_C10.1 ⟨["base"]⟩ ["sym"] "./." (by decide) (by decide)

/-! ## Output uniqueness (C7) -/

theorem insertUnique_nodup {l : List PathStat} {x : PathStat} (h : l.Nodup) :
    (insertUnique l x).Nodup := by
  unfold insertUnique
  split
  · exact h
  · rename_i hx
    simp [List.nodup_append, h, hx]

theorem extendUnique_nodup : ∀ (xs l : List PathStat), l.Nodup → (extendUnique l xs).Nodup := by
  intro xs
  induction xs with
  | nil => intro l h; exact h
  | cons x xs ih =>
    intro l h
    simp only [extendUnique, List.foldl_cons]
    exact ih (insertUnique l x) (insertUnique_nodup h)

theorem integrateChild_outputs (src : GlobSource) (st : PathGlobsExpansion) (c : PathGlob) :
    (integrateChild src st c).outputs = st.outputs := by
  unfold integrateChild
  split <;> rfl

theorem foldl_integrateChild_outputs (src : GlobSource) :
    ∀ (cs : List PathGlob) (st : PathGlobsExpansion),
      (cs.foldl (integrateChild src) st).outputs = st.outputs := by
  intro cs
  induction cs with
  | nil => intro st; rfl
  | cons c cs ih =>
    intro st
    rw [List.foldl_cons, ih, integrateChild_outputs]

theorem integrateResult_outputs (st : PathGlobsExpansion) (r : SingleExpansionResult) :
    (integrateResult st r).outputs = extendUnique st.outputs r.path_stats := by
  unfold integrateResult
  rw [foldl_integrateChild_outputs]

theorem foldl_integrateResult_nodup :
    ∀ (rs : List SingleExpansionResult) (st : PathGlobsExpansion),
      st.outputs.Nodup → ((rs.foldl integrateResult st)).outputs.Nodup := by
  intro rs
  induction rs with
  | nil => intro st h; exact h
  | cons r rs ih =>
    intro st h
    rw [List.foldl_cons]
    refine ih _ ?_
    rw [integrateResult_outputs]
    exact extendUnique_nodup _ _ h

theorem expandRound_zero (vfs : VFSModel) (exclude : GitignoreStyleExcludes)
    (st : PathGlobsExpansion) : expandRound 0 vfs exclude st = .diverge := rfl

theorem expandLoop_zero (vfs : VFSModel) (exclude : GitignoreStyleExcludes)
    (st : PathGlobsExpansion) : expandLoop 0 vfs exclude st = .diverge := rfl

theorem expandRound_ok_nodup {n : Nat} {vfs : VFSModel} {excl : GitignoreStyleExcludes}
    {st st' : PathGlobsExpansion} (h : expandRound n vfs excl st = .ok st')
    (hn : st.outputs.Nodup) : st'.outputs.Nodup := by
  cases n with
  | zero =>
    rw [expandRound_zero] at h
    exact absurd h (by simp)
  | succ m =>
    rw [expandRound_succ] at h
    obtain ⟨results, hr, hfold⟩ := MRes.bind_eq_ok.mp h
    cases hfold
    exact foldl_integrateResult_nodup results _ hn

theorem expandLoop_ok_nodup :
    ∀ (n : Nat) {vfs : VFSModel} {excl : GitignoreStyleExcludes}
      {st st' : PathGlobsExpansion}, expandLoop n vfs excl st = .ok st' →
      st.outputs.Nodup → st'.outputs.Nodup := by
  intro n
  induction n with
  | zero =>
    intro vfs excl st st' h hn
    rw [expandLoop_zero] at h
    exact absurd h (by simp)
  | succ m ih =>
    intro vfs excl st st' h hn
    rw [expandLoop_succ] at h
    obtain ⟨st1, hr, hrest⟩ := MRes.bind_eq_ok.mp h
    have h1 := expandRound_ok_nodup hr hn
    by_cases he : st1.todo.isEmpty
    · rw [if_pos he] at hrest
      cases hrest
      exact h1
    · rw [if_neg he] at hrest
      exact ih hrest h1

theorem finishExpansion_ok {inc : List PathGlobIncludeEntry} {excl : GitignoreStyleExcludes}
    {b : StrictGlobMatching} {st : PathGlobsExpansion} {l : List PathStat}
    (h : finishExpansion inc excl b st = .ok l) : l = st.outputs := by
  unfold finishExpansion at h
  split at h
  · split at h
    · cases h; rfl
    · split at h
      · cases h
      · cases h; rfl
  · cases h; rfl

/--
C7: for every `PathGlobs` value, a successful `expand` returns a list of
`PathStat`s with no duplicate elements (the `outputs` ordered set admits each
`PathStat` at most once).
-/
theorem claim_C7 (fuel : Nat) (vfs : VFSModel) (path_globs : PathGlobs)
    (result : List PathStat) (h : expand fuel vfs path_globs = .ok result) :
    result.Nodup := by
  cases fuel with
  | zero =>
    have h0 : expand 0 vfs path_globs =
        (if path_globs.include_.isEmpty then .ok [] else .diverge) := rfl
    rw [h0] at h
    split at h
    · cases h; exact List.nodup_nil
    · exact absurd h (by simp)
  | succ m =>
    rw [expand_succ] at h
    split at h
    · cases h; exact List.nodup_nil
    · obtain ⟨final, hl, hf⟩ := MRes.bind_eq_ok.mp h
      have hfin := expandLoop_ok_nodup m hl List.nodup_nil
      rw [finishExpansion_ok hf]
      exact hfin

theorem EntriesPreserved.refl (m : CompletedMap) : EntriesPreserved m m :=
  fun _ e he => ⟨e, he, rfl, rfl⟩

theorem EntriesPreserved.trans {m₀ m₁ m₂ : CompletedMap}
    (h₁ : EntriesPreserved m₀ m₁) (h₂ : EntriesPreserved m₁ m₂) :
    EntriesPreserved m₀ m₂ := by
  intro k e he
  obtain ⟨e1, he1, hg1, hm1⟩ := h₁ k e he
  obtain ⟨e2, he2, hg2, hm2⟩ := h₂ k e1 he1
  exact ⟨e2, he2, hg2.trans hg1, hm2.trans hm1⟩

theorem lookupEntry_cons (kv : PathGlob × GlobExpansionCacheEntry) (m : CompletedMap)
    (q : PathGlob) :
    lookupEntry (kv :: m) q = if kv.1 = q then some kv.2 else lookupEntry m q := rfl

theorem lookupEntry_pushSource (m : CompletedMap) (k : PathGlob) (src : GlobSource)
    (q : PathGlob) :
    lookupEntry (pushSource m k src) q =
      (lookupEntry m q).map
        (fun e => if q = k then { e with sources := e.sources ++ [src] } else e) := by
  induction m with
  | nil => rfl
  | cons kv m ih =>
    have hps : pushSource (kv :: m) k src =
        (if kv.1 = k then (kv.1, { kv.2 with sources := kv.2.sources ++ [src] }) else kv) ::
          pushSource m k src := rfl
    have hfst : ((if kv.1 = k then (kv.1, { kv.2 with sources := kv.2.sources ++ [src] })
        else kv)).1 = kv.1 := by split <;> rfl
    have hsnd : ((if kv.1 = k then (kv.1, { kv.2 with sources := kv.2.sources ++ [src] })
        else kv)).2 =
        (if kv.1 = k then { kv.2 with sources := kv.2.sources ++ [src] } else kv.2) := by
      split <;> rfl
    rw [hps, lookupEntry_cons, lookupEntry_cons, hfst, hsnd]
    by_cases hq : kv.1 = q
    · rw [if_pos hq, if_pos hq, Option.map_some']
      by_cases hk : kv.1 = k
      · rw [if_pos hk, if_pos (hq ▸ hk)]
      · rw [if_neg hk, if_neg (fun hh => hk (hq.trans hh))]
    · rw [if_neg hq, if_neg hq]
      exact ih

theorem pushSource_keys (m : CompletedMap) (k : PathGlob) (src : GlobSource) :
    (pushSource m k src).map Prod.fst = m.map Prod.fst := by
  induction m with
  | nil => rfl
  | cons kv m ih =>
    simp only [pushSource, List.map_cons] at *
    split <;> simp [ih]

theorem entriesPreserved_pushSource (m : CompletedMap) (k : PathGlob) (src : GlobSource) :
    EntriesPreserved m (pushSource m k src) := by
  intro q e he
  rw [lookupEntry_pushSource, he]
  split <;> exact ⟨_, rfl, rfl, rfl⟩

theorem lookupEntry_append (m₁ m₂ : CompletedMap) (k : PathGlob) :
    lookupEntry (m₁ ++ m₂) k =
      match lookupEntry m₁ k with
      | some e => some e
      | none => lookupEntry m₂ k := by
  induction m₁ with
  | nil => rfl
  | cons kv m ih =>
    simp only [List.cons_append, lookupEntry]
    split <;> simp [ih]

theorem lookupEntry_none_not_mem {m : CompletedMap} {k : PathGlob}
    (h : lookupEntry m k = none) : k ∉ m.map Prod.fst := by
  induction m with
  | nil => simp
  | cons kv m ih =>
    simp only [lookupEntry] at h
    split at h
    · exact absurd h (by simp)
    · rename_i hne
      simp only [List.map_cons, List.mem_cons]
      rintro (hh | hh)
      · exact hne hh.symm
      · exact ih h hh

theorem entriesPreserved_completedInsert (m : CompletedMap) (k : PathGlob)
    (globs : List PathGlob) (path_stats : List PathStat) (src : GlobSource) :
    EntriesPreserved m (completedInsert m k globs path_stats src) := by
  unfold completedInsert
  split
  · exact entriesPreserved_pushSource m k src
  · intro q e he
    rw [lookupEntry_append, he]
    exact ⟨e, rfl, rfl, rfl⟩

theorem completedInsert_keys_nodup {m : CompletedMap} (k : PathGlob)
    (globs : List PathGlob) (path_stats : List PathStat) (src : GlobSource)
    (h : (m.map Prod.fst).Nodup) :
    ((completedInsert m k globs path_stats src).map Prod.fst).Nodup := by
  unfold completedInsert
  split
  · rwa [pushSource_keys]
  · rename_i hnone
    have hk : lookupEntry m k = none := by
      cases hcase : lookupEntry m k with
      | none => rfl
      | some e => rw [hcase] at hnone; exact absurd rfl hnone
    have hnm := lookupEntry_none_not_mem hk
    simp [List.nodup_append, h, hnm]

theorem roundInv_integrateChild (src : GlobSource) {m₀ : CompletedMap}
    {st : PathGlobsExpansion} (h : RoundInv m₀ st) (c : PathGlob) :
    RoundInv m₀ (integrateChild src st c) := by
  obtain ⟨hp, ht, hn⟩ := h
  unfold integrateChild
  split
  · refine ⟨hp.trans (entriesPreserved_pushSource _ c src), ht, ?_⟩
    intro hnod
    rw [pushSource_keys]
    exact hn hnod
  · rename_i hnone'
    refine ⟨hp, ?_, hn⟩
    intro g hg
    rw [List.mem_append] at hg
    cases hg with
    | inl hh => exact ht g hh
    | inr hh =>
      have hgc : g = ⟨c, src⟩ := by simpa using hh
      subst hgc
      have hcnone : lookupEntry st.completed c = none := by
        cases hc : lookupEntry st.completed c with
        | none => rfl
        | some e => rw [hc] at hnone'; exact absurd rfl hnone'
      cases hm : lookupEntry m₀ c with
      | none => rfl
      | some e =>
        obtain ⟨e', he', -, -⟩ := hp c e hm
        rw [hcnone] at he'
        cases he'

theorem roundInv_foldl_children (src : GlobSource) :
    ∀ (cs : List PathGlob) {m₀ : CompletedMap} {st : PathGlobsExpansion},
      RoundInv m₀ st → RoundInv m₀ (cs.foldl (integrateChild src) st) := by
  intro cs
  induction cs with
  | nil => intro m₀ st h; exact h
  | cons c cs ih =>
    intro m₀ st h
    rw [List.foldl_cons]
    exact ih (roundInv_integrateChild src h c)

theorem roundInv_integrateResult {m₀ : CompletedMap} {st : PathGlobsExpansion}
    (h : RoundInv m₀ st) (r : SingleExpansionResult) :
    RoundInv m₀ (integrateResult st r) := by
  obtain ⟨hp, ht, hn⟩ := h
  refine roundInv_foldl_children _ r.globs ⟨?_, ?_, ?_⟩
  · exact hp.trans (entriesPreserved_completedInsert _ _ _ _ _)
  · exact ht
  · intro hnod
    exact completedInsert_keys_nodup _ _ _ _ (hn hnod)

theorem roundInv_foldl_results :
    ∀ (rs : List SingleExpansionResult) {m₀ : CompletedMap} {st : PathGlobsExpansion},
      RoundInv m₀ st → RoundInv m₀ (rs.foldl integrateResult st) := by
  intro rs
  induction rs with
  | nil => intro m₀ st h; exact h
  | cons r rs ih =>
    intro m₀ st h
    rw [List.foldl_cons]
    exact ih (roundInv_integrateResult h r)

theorem expandRound_inv {n : Nat} {vfs : VFSModel} {excl : GitignoreStyleExcludes}
    {st st' : PathGlobsExpansion} (h : expandRound n vfs excl st = .ok st') :
    RoundInv st.completed st' := by
  cases n with
  | zero =>
    rw [expandRound_zero] at h
    exact absurd h (by simp)
  | succ m =>
    rw [expandRound_succ] at h
    obtain ⟨results, hr, hfold⟩ := MRes.bind_eq_ok.mp h
    cases hfold
    refine roundInv_foldl_results results ⟨EntriesPreserved.refl _, ?_, fun hh => hh⟩
    intro g hg
    exact absurd hg (by simp)

/--
C6: within one round of `expand`, a `PathGlob` already in `completed` is
never re-inserted (its entry keeps its `globs` and `matched`, only gaining
sources, and the key set stays duplicate-free), a re-encountered child glob
only has the new source appended and is never re-enqueued, every glob the
round enqueues onto `todo` was not yet in `completed`, and a round that
enqueues nothing is the last round (the loop breaks).
-/
theorem claim_C6 (n : Nat) (vfs : VFSModel) (excl : GitignoreStyleExcludes)
    (st st' : PathGlobsExpansion) (h : expandRound n vfs excl st = .ok st') :
    (∀ k e, lookupEntry st.completed k = some e →
      ∃ e', lookupEntry st'.completed k = some e' ∧
        e'.globs = e.globs ∧ e'.matched = e.matched) ∧
    (∀ g ∈ st'.todo, lookupEntry st.completed g.path_glob = none) ∧
    ((st.completed.map Prod.fst).Nodup → (st'.completed.map Prod.fst).Nodup) ∧
    (st'.todo = [] → expandLoop (n + 1) vfs excl st = .ok st') ∧
    (∀ (src : GlobSource) (s : PathGlobsExpansion) (c : PathGlob),
      (lookupEntry s.completed c).isSome = true →
      integrateChild src s c = { s with completed := pushSource s.completed c src }) := by
  obtain ⟨hp, ht, hn⟩ := expandRound_inv h
  refine ⟨hp, ht, hn, ?_, ?_⟩
  · intro htodo
    rw [expandLoop_succ, h]
    simp [MRes.bind, htodo]
  · intro src s c hc
    unfold integrateChild
    rw [if_pos hc]

/-- Witness for C7: a concrete successful expansion, and its result has no
duplicates. -/
theorem claim_C7_witness :
    (expand 8 oneFileVFS starPathGlobs = .ok [PathStat.file ["a"] ⟨["a"], false⟩]) ∧
    List.Nodup [PathStat.file ["a"] ⟨["a"], false⟩] :=
  ⟨rfl, claim_C7 8 oneFileVFS starPathGlobs _ rfl⟩

/-- Witness for C6 at a concrete round. -/
theorem claim_C6_witness :
    (∀ k e, lookupEntry wRoundStart.completed k = some e →
      ∃ e', lookupEntry wRoundEnd.completed k = some e' ∧
        e'.globs = e.globs ∧ e'.matched = e.matched) ∧
    (∀ g ∈ wRoundEnd.todo, lookupEntry wRoundStart.completed g.path_glob = none) ∧
    ((wRoundStart.completed.map Prod.fst).Nodup →
      (wRoundEnd.completed.map Prod.fst).Nodup) ∧
    (wRoundEnd.todo = [] → expandLoop 7 oneFileVFS .empty wRoundStart = .ok wRoundEnd) ∧
    (∀ (src : GlobSource) (s : PathGlobsExpansion) (c : PathGlob),
      (lookupEntry s.completed c).isSome = true →
      integrateChild src s c = { s with completed := pushSource s.completed c src }) :=
  claim_C6 6 oneFileVFS .empty wRoundStart wRoundEnd rfl

/-! ## Strict-match diagnostics (C1) -/

theorem string_data_append (a b : String) : (a ++ b).data = a.data ++ b.data := by
  cases a
  cases b
  rfl

theorem mem_sepQuoted_within :
    ∀ (l : List String) (x : String), x ∈ l →
      List.IsInfix (quoteStr x).data (sepQuoted l).data := by
  intro l
  induction l with
  | nil => intro x hx; exact absurd hx (by simp)
  | cons y r ih =>
    intro x hx
    cases r with
    | nil =>
      have hxy : x = y := by simpa using hx
      subst hxy
      exact List.infix_rfl
    | cons z r2 =>
      have hsep : sepQuoted (y :: z :: r2) = quoteStr y ++ ", " ++ sepQuoted (z :: r2) := rfl
      rw [hsep, string_data_append, string_data_append]
      rcases List.mem_cons.mp hx with hxy | hxr
      · subst hxy
        exact ⟨[], ", ".data ++ (sepQuoted (z :: r2)).data, by simp⟩
      · have := ih x hxr
        refine List.IsInfix.trans this ⟨(quoteStr y).data ++ ", ".data, [], by simp⟩

theorem mem_fmtStrList_within {l : List String} {x : String} (hx : x ∈ l) :
    List.IsInfix (quoteStr x).data (fmtStrList l).data := by
  refine List.IsInfix.trans (mem_sepQuoted_within l x hx) ?_
  unfold fmtStrList
  rw [string_data_append, string_data_append]
  exact ⟨"[".data, "]".data, by simp⟩

theorem self_infix_quoteStr (x : String) : List.IsInfix x.data (quoteStr x).data := by
  unfold quoteStr
  rw [string_data_append, string_data_append]
  exact ⟨"\"".data, "\"".data, by simp⟩

theorem fmtStrList_infix_strictMsg (ex um : List String) :
    List.IsInfix (fmtStrList ex).data (strictMsg ex um).data := by
  unfold strictMsg
  rw [string_data_append, string_data_append, string_data_append]
  exact ⟨"Globs did not match. Excludes were: ".data,
    (". Unmatched globs were: " ++ fmtStrList um).data ++ ".".data, by simp⟩

theorem unmatched_infix_strictMsg {um : List String} (ex : List String) {x : String}
    (hx : x ∈ um) : List.IsInfix x.data (strictMsg ex um).data := by
  refine List.IsInfix.trans (self_infix_quoteStr x) ?_
  refine List.IsInfix.trans (mem_fmtStrList_within hx) ?_
  unfold strictMsg
  rw [string_data_append, string_data_append, string_data_append]
  exact ⟨("Globs did not match. Excludes were: " ++ fmtStrList ex ++
    ". Unmatched globs were: ").data, ".".data, by simp⟩

/--
C1: under `StrictGlobMatching::Error`, when the fixed point completes, the
expansion fails exactly when some include input's globs transitively expanded
to zero `PathStat`s (the back-propagated non-matching set is non-empty); the
error message then contains each unmatched input's original filespec string
and the formatted exclude pattern list.  When every include input transitively
matched, the expansion succeeds with the collected outputs.
-/
theorem claim_C1 (fuel : Nat) (vfs : VFSModel) (pg : PathGlobs)
    (st : PathGlobsExpansion)
    (hb : pg.strict_match_behavior = .error)
    (hne : pg.include_ ≠ [])
    (hloop : expandLoop fuel vfs pg.exclude
        ⟨pg.include_.flatMap PathGlobIncludeEntry.to_sourced_globs, [], []⟩ = .ok st) :
    (nonMatchingInputs pg.include_ st.completed ≠ [] →
      expand (fuel + 1) vfs pg =
        .error (strictMsg pg.exclude.patterns
          ((nonMatchingInputs pg.include_ st.completed).map (fun i => i.s))) ∧
      (∀ i ∈ nonMatchingInputs pg.include_ st.completed,
        List.IsInfix i.s.data
          (strictMsg pg.exclude.patterns
            ((nonMatchingInputs pg.include_ st.completed).map (fun i => i.s))).data) ∧
      List.IsInfix (fmtStrList pg.exclude.patterns).data
        (strictMsg pg.exclude.patterns
          ((nonMatchingInputs pg.include_ st.completed).map (fun i => i.s))).data) ∧
    (nonMatchingInputs pg.include_ st.completed = [] →
      expand (fuel + 1) vfs pg = .ok st.outputs) := by
  have hie : ¬(pg.include_.isEmpty = true) := by
    intro hic
    exact hne (List.isEmpty_iff.mp hic)
  have hexp : expand (fuel + 1) vfs pg =
      finishExpansion pg.include_ pg.exclude pg.strict_match_behavior st := by
    rw [expand_succ, if_neg hie, hloop]
    rfl
  constructor
  · intro hnm
    have hnme : (nonMatchingInputs pg.include_ st.completed).isEmpty = false := by
      cases hc : nonMatchingInputs pg.include_ st.completed with
      | nil => exact absurd hc hnm
      | cons a l => rfl
    refine ⟨?_, ?_, ?_⟩
    · rw [hexp, hb]
      unfold finishExpansion
      rw [hnme]
      rfl
    · intro i hi
      exact unmatched_infix_strictMsg _ (List.mem_map_of_mem (fun i => i.s) hi)
    · exact fmtStrList_infix_strictMsg _ _
  · intro hnm
    rw [hexp, hb]
    unfold finishExpansion
    rw [hnm]
    rfl

/-- Witness for C1: the spec's boundary scenario 5 — `["nonexistent"]` under
`Error` over an empty tree fails, with a message containing `"nonexistent"`,
and the include list parses to the fixture. -/
theorem claim_C1_witness :
    expand 6 emptyTreeVFS nonexistentPathGlobs =
      .error (strictMsg [] ["nonexistent"]) ∧
    List.IsInfix "nonexistent".data (strictMsg [] ["nonexistent"]).data ∧
    PathGlob.parse ⟨[]⟩ [] "nonexistent" =
      .ok [.wildcard ⟨[]⟩ [] ⟨"nonexistent"⟩] := by
  have h := claim_C1 5 emptyTreeVFS nonexistentPathGlobs wC1St rfl (by decide) rfl
  have h1 := h.1 (by decide)
  exact ⟨h1.1, h1.2.1 ⟨"nonexistent"⟩ (by decide), rfl⟩

/--
Counterexample to C3 as stated: in `directory_listing` over `canonical_dir =
[]` with `symbolic_path = ["a", ".."]` and wildcard `lnk`, the link entry
survives the wildcard filter and is dropped, although the excludes do *not*
match its symbolic name `a/../lnk` (they match the listing name `lnk`); the
context ignore is false on it and its canonicalization succeeds, so the drop
is attributable only to the local excludes.
-/
theorem claim_C3_counterexample :
    directory_listing 4 cexVFS ⟨[]⟩ ["a", ".."] ⟨"lnk"⟩ cexExcl = .ok [] ∧
    cexExcl.is_ignored (.link ⟨["a", "..", "lnk"]⟩) = false ∧
    cexVFS.is_ignored (.link ⟨["lnk"]⟩) = false ∧
    canonicalize 13 cexVFS ["a", "..", "lnk"] ⟨["lnk"]⟩ =
      .ok (some (.file ["a", "..", "lnk"] ⟨["d", "tgt"], false⟩)) ∧
    cexExcl.is_ignored (.link ⟨["lnk"]⟩) = true := by
  exact ⟨rfl, rfl, rfl, rfl, rfl⟩

/--
C3 (amended): in `directory_listing`, both ignore checks are applied to the
listing `Stat` — whose path is the canonical dir joined with the entry's file
name — not to the symbolic path: a link entry surviving the wildcard filter
and not context-ignored is dropped by the local excludes iff the excludes
match that listing stat; otherwise it proceeds to `canonicalize`.  A
context-ignored entry is always dropped, and the context ignore is re-applied
to the canonical target inside `canonicalize` (third part: over `cexVFS2`,
whose context ignores the link target, the link canonicalizes to `None` even
though the excludes are empty).
-/
theorem claim_C3_amended :
    (∀ (n : Nat) (vfs : VFSModel) (excl : GitignoreStyleExcludes) (p : RPath) (l : Link),
      vfs.is_ignored (.link l) = false →
      (excl.is_ignored (.link l) = true →
        listingStep (n + 1) vfs excl (p, .link l) = .ok none) ∧
      (excl.is_ignored (.link l) = false →
        listingStep (n + 1) vfs excl (p, .link l) = canonicalize n vfs p l)) ∧
    (∀ (n : Nat) (vfs : VFSModel) (excl : GitignoreStyleExcludes) (p : RPath) (st : Stat),
      vfs.is_ignored st = true → listingStep (n + 1) vfs excl (p, st) = .ok none) ∧
    (canonicalize 13 cexVFS2 ["x"] ⟨["lnk"]⟩ = .ok none ∧
      cexVFS2.is_ignored (.file ⟨["d", "tgt"], false⟩) = true ∧
      cexVFS2.read_link ⟨["lnk"]⟩ = .ok ["d", "tgt"]) := by
  refine ⟨?_, ?_, ⟨rfl, by decide, rfl⟩⟩
  · intro n vfs excl p l hv
    constructor
    · intro he
      rw [listingStep_succ]
      simp only [hv, he, Bool.false_or, if_pos]
    · intro he
      rw [listingStep_succ]
      simp only [hv, he, Bool.or_self, Bool.false_or, if_neg, Bool.false_eq_true,
        not_false_eq_true]
  · intro n vfs excl p st hv
    rw [listingStep_succ]
    simp only [hv, Bool.true_or, if_pos]

/-- Witness for the amended C3 at the counterexample's concrete input. -/
theorem claim_C3_amended_witness :
    listingStep 2 cexVFS cexExcl (["a", "..", "lnk"], .link ⟨["lnk"]⟩) = .ok none :=
  ((claim_C3_amended.1 1 cexVFS cexExcl ["a", "..", "lnk"] ⟨["lnk"]⟩ rfl).1 rfl)

/-! ## path_stats semantics (C8) -/

theorem mapMRes_ok_spec {α β : Type} {f : α → MRes β} :
    ∀ {xs : List α} {ys : List β}, mapMRes f xs = .ok ys →
      ys.length = xs.length ∧
      ∀ (i : Nat) (hx : i < xs.length) (hy : i < ys.length),
        f (xs.get ⟨i, hx⟩) = .ok (ys.get ⟨i, hy⟩) := by
  intro xs
  induction xs with
  | nil =>
    intro ys h
    have hys : ys = [] := by
      simpa [mapMRes] using h.symm
    subst hys
    exact ⟨rfl, fun i hx hy => absurd hx (by simp)⟩
  | cons a rest ih =>
    intro ys h
    unfold mapMRes at h
    cases hfa : f a with
    | diverge => rw [hfa] at h; exact absurd h (by simp)
    | error e => rw [hfa] at h; exact absurd h (by simp)
    | ok b =>
      rw [hfa] at h
      cases hrest : mapMRes f rest with
      | diverge => rw [hrest] at h; exact absurd h (by simp)
      | error e => rw [hrest] at h; exact absurd h (by simp)
      | ok bs =>
        rw [hrest] at h
        have hys : ys = b :: bs := by
          cases h
          rfl
        subst hys
        obtain ⟨hlen, helem⟩ := ih hrest
        refine ⟨by simp [hlen], ?_⟩
        intro i hx hy
        cases i with
        | zero => exact hfa
        | succ j =>
          exact helem j (by simpa using hx) (by simpa using hy)

theorem mapMRes_mem_not_ok {α β : Type} {f : α → MRes β} {x : α}
    (hfx : ∀ b, f x ≠ .ok b) :
    ∀ {xs : List α}, x ∈ xs → ∀ ys, mapMRes f xs ≠ .ok ys := by
  intro xs
  induction xs with
  | nil => intro hx; exact absurd hx (by simp)
  | cons a rest ih =>
    intro hx ys h
    unfold mapMRes at h
    rcases List.mem_cons.mp hx with hxa | hxr
    · subst hxa
      cases hfa : f x with
      | diverge => rw [hfa] at h; exact absurd h (by simp)
      | error e => rw [hfa] at h; exact absurd h (by simp)
      | ok b => exact hfx b hfa
    · cases hfa : f a with
      | diverge => rw [hfa] at h; exact absurd h (by simp)
      | error e => rw [hfa] at h; exact absurd h (by simp)
      | ok b =>
        rw [hfa] at h
        cases hrest : mapMRes f rest with
        | diverge => rw [hrest] at h; exact absurd h (by simp)
        | error e => rw [hrest] at h; exact absurd h (by simp)
        | ok bs => exact ih hxr bs hrest

/--
C8: a successful `path_stats` returns one element per input path, in input
order, where each element is the `pathStatOne` dispatch on that path's stat:
not-found yields `None` (never an error), a dir or file yields the
corresponding `PathStat`, and a symlink is `canonicalize`d (a broken symlink
yielding `None`); a path whose stat fails with any other I/O error prevents
the whole call from succeeding (it fails instead).
-/
theorem claim_C8 :
    (∀ (n : Nat) (fs : PosixFSModel) (paths : List RPath) (res : List (Option PathStat)),
      path_stats n fs paths = .ok res →
      res.length = paths.length ∧
      ∀ (i : Nat) (hp : i < paths.length) (hr : i < res.length),
        pathStatOne n fs (paths.get ⟨i, hp⟩) = .ok (res.get ⟨i, hr⟩)) ∧
    (∀ (n : Nat) (fs : PosixFSModel) (p : RPath) (m : String),
      (fs.stat_path p = .error (.notFound, m) → pathStatOne n fs p = .ok none) ∧
      (∀ d, fs.stat_path p = .ok (.dir d) →
        pathStatOne n fs p = .ok (some (.dir d.path d))) ∧
      (∀ f, fs.stat_path p = .ok (.file f) →
        pathStatOne n fs p = .ok (some (.file f.path f))) ∧
      (∀ l, fs.stat_path p = .ok (.link l) →
        pathStatOne n fs p = canonicalize n fs.vfs l.path l) ∧
      (fs.stat_path p = .error (.other, m) → pathStatOne n fs p = .error m)) ∧
    (∀ (n : Nat) (fs : PosixFSModel) (paths : List RPath) (p : RPath) (m : String),
      p ∈ paths → fs.stat_path p = .error (.other, m) →
      ∀ res, path_stats n fs paths ≠ .ok res) := by
  refine ⟨?_, ?_, ?_⟩
  · intro n fs paths res h
    exact mapMRes_ok_spec h
  · intro n fs p m
    refine ⟨?_, ?_, ?_, ?_, ?_⟩
    · intro h; unfold pathStatOne; rw [h]
    · intro d h; unfold pathStatOne; rw [h]
    · intro f h; unfold pathStatOne; rw [h]
    · intro l h; unfold pathStatOne; rw [h]
    · intro h; unfold pathStatOne; rw [h]
  · intro n fs paths p m hp hstat res
    refine mapMRes_mem_not_ok ?_ hp res
    intro b hb
    unfold pathStatOne at hb
    rw [hstat] at hb
    exact absurd hb (by simp)

/-- Witness for C8: a concrete `path_stats` call pairing each input with its
result, and a concrete other-error call that cannot succeed. -/
theorem claim_C8_witness :
    (path_stats 1 wPosixFS [["a"], ["b"]] =
      .ok [some (.file ["a"] ⟨["a"], false⟩), none]) ∧
    ([some (PathStat.file ["a"] ⟨["a"], false⟩), none].length = [["a"], ["b"]].length) ∧
    (∀ res, path_stats 1 wPosixFS [["a"], ["c"]] ≠ .ok res) := by
  refine ⟨rfl, ?_, ?_⟩
  · exact (claim_C8.1 1 wPosixFS [["a"], ["b"]]
      [some (.file ["a"] ⟨["a"], false⟩), none] rfl).1
  · exact claim_C8.2.2 1 wPosixFS [["a"], ["c"]] ["c"] "boom" (by decide) rfl
